import Mathlib

/-!
Verification of `generate_current_distribution_table` from
`src_currents/current_analysis.py` (the unified script; `analisar_dados_corrente.py`
contains an older variant of the same function).

Shallow embedding notes.
* An observation row of the input DataFrame is modelled by `Obs`: the calendar
  month of its `DatetimeIndex` timestamp, and the `st_ocean`, `velocidade`,
  `direcao` columns as rationals (pandas float64 arithmetic on these inputs is
  exact at the scales exercised; we embed the numeric pipeline over `ℚ`).
* `pd.cut(x, bins, right=False, labels=...)` assigns a value to the half-open
  interval `[bins[i], bins[i+1])` containing it, and `NaN` (here `none`)
  otherwise.  On explicit edges it validates, in order: a strict decrease
  between adjacent edges raises `ValueError` ("bins must increase
  monotonically", the check is `(np.diff(bins) < 0).any()`, so ties pass);
  duplicate edges raise `ValueError` ("Bin edges must be unique") unless the
  list has exactly two edges; and the `labels` argument must have
  `len(bins) - 1` entries, which fails exactly for an empty edge list (the
  caller builds `max(len - 1, 0)` labels).  `cutIdx` embeds the interval
  search, `hasDecrease` and `speedCutError` the validation.
* `pd.crosstab(a, b)` with categorical inputs and the default `dropna=True`
  drops rows with a `NaN` factor and drops categories with no observation at
  all (per the pandas docstring example: unused categories `c`, `f` are absent
  unless `dropna=False`); surviving categories keep their declared order and
  zero cells are kept.  `survRows`/`survCols`/`cellCount` embed this.
* All Python failures of this function are `ValueError`s raised at different
  statements; `Err` distinguishes them by raise site (period parsing in
  `pd.to_datetime`, bin monotonicity in `pd.cut`, `int()` on a bin label in the
  accumulate relabel, and the final column `MultiIndex` length mismatch).
-/

attribute [local semireducible] Rat.add Rat.mul Rat.sub Rat.inv Rat.ofScientific

set_option maxRecDepth 16000 in
set_option maxRecDepth 16000 in
/-- One row of the caller's DataFrame: calendar month of the timestamp index,
depth (`st_ocean`), current speed (`velocidade`) and direction (`direcao`). -/
structure Obs where
  month : ℕ
  st_ocean : ℚ
  velocidade : ℚ
  direcao : ℚ
deriving DecidableEq, Repr

/-- The distinct `ValueError` raise sites of the Python function. -/
inductive Err where
  /-- Raised by `pd.to_datetime(period, format=...)` on an unparseable period string. -/
  | invalidPeriod : Err
  /-- Raised by `pd.cut` on speed thresholds with a strictly decreasing
  adjacent pair ("bins must increase monotonically"). -/
  | binsNotMonotonic : Err
  /-- Raised by `pd.cut` on duplicate threshold edges when the list does not
  have exactly two entries ("Bin edges must be unique"). -/
  | binEdgesNotUnique : Err
  /-- Raised by `pd.cut` when the labels list does not have `len(bins) - 1`
  entries, which happens exactly for an empty threshold list. -/
  | labelsLengthMismatch : Err
  /-- Raised by `int(lbl)` on a `"lo-hi"` bin label in the accumulate relabelling. -/
  | accumLabelValue : Err
  /-- Raised when assigning a 13-tuple `MultiIndex` to a frame with a different column count. -/
  | columnsLengthMismatch : Err
deriving DecidableEq, Repr

/-- One row of the intermediate `current_df` frame: the copied speed and
direction values plus the two bin columns added by the function. -/
structure CRow where
  speed : ℚ
  direction : ℚ
  dirBin : Option ℕ
  speedBin : Option ℕ
deriving DecidableEq, Repr

/-- The returned distribution table.  Columns are fixed by the final
`MultiIndex` assignment: 12 direction sectors then `Omni`.  Rows are the
surviving speed bins (label, 12 sector cells, Omni cell) followed by the
`Total`, `Mean` and `Maximum` summary rows. -/
structure DistTable where
  speedRows : List (String × List ℚ × ℚ)
  totalRow : List ℚ × ℚ
  meanRow : List ℚ × ℚ
  maxRow : List ℚ × ℚ
deriving DecidableEq, Repr, Inhabited

instance exceptDecEq {e a : Type} [DecidableEq e] [DecidableEq a] :
    DecidableEq (Except e a) := fun x y =>
  match x, y with
  | .error u, .error v =>
      if h : u = v then .isTrue (h ▸ rfl) else .isFalse fun hc => h (Except.error.inj hc)
  | .ok u, .ok v =>
      if h : u = v then .isTrue (h ▸ rfl) else .isFalse fun hc => h (Except.ok.inj hc)
  | .error _, .ok _ => .isFalse fun hc => Except.noConfusion hc
  | .ok _, .error _ => .isFalse fun hc => Except.noConfusion hc

/-- The test `(np.diff(bins) < 0).any()` behind `pd.cut`'s "bins must increase
monotonically" error: true iff some adjacent pair of edges strictly decreases
(ties do not trigger it). -/
def hasDecrease : List ℚ → Bool
  | a :: b :: rest => decide (b < a) || hasDecrease (b :: rest)
  | _ => false

/-- The validation `pd.cut` runs on the explicit speed-threshold edges, in
check order: a strict decrease raises "bins must increase monotonically";
duplicate edges (fewer distinct values than entries) raise "Bin edges must be
unique" unless the list has exactly two edges; and the labels list the caller
builds has `max(len - 1, 0)` entries while `pd.cut` requires `len(bins) - 1`,
which fails exactly for an empty edge list. -/
def speedCutError (ts : List ℚ) : Option Err :=
  if hasDecrease ts then some .binsNotMonotonic
  else if ts.dedup.length < ts.length ∧ ts.length ≠ 2 then some .binEdgesNotUnique
  else if ts.length = 0 then some .labelsLengthMismatch
  else none

/-- Embedding of `pd.cut(x, bins, right=False)`: index of the half-open interval
`[edges[i], edges[i+1])` containing `x`, if any. -/
def cutIdx : List ℚ → ℚ → Option ℕ
  | e0 :: e1 :: rest, x =>
      if e0 ≤ x ∧ x < e1 then some 0
      else (cutIdx (e1 :: rest) x).map (· + 1)
  | _, _ => none

/-- The direction bin edges `np.arange(-15, 375, 30)` (13 values, stopping at 345). -/
def dirEdges : List ℚ := [-15, 15, 45, 75, 105, 135, 165, 195, 225, 255, 285, 315, 345]

/-- The direction-sector index (0 ↦ the 0°-centred sector, …, 11 ↦ 330°) an
observation's direction receives: `pd.cut` on `dirEdges` followed by the
wrap-around override `current_df.loc[current_df['direction'] > 345, 'DirBin'] = 0`. -/
def dirBinIdx (d : ℚ) : Option ℕ :=
  if 345 < d then some 0 else cutIdx dirEdges d

/-- Python `round(x, 2)` / pandas `Series.round(2)`: rounding to two decimal places. -/
def round2 (q : ℚ) : ℚ := (round (q * 100) : ℤ) / 100

/-- The four season codes and their month sets. -/
def seasons : List (String × List ℕ) :=
  [("DJF", [12, 1, 2]), ("MAM", [3, 4, 5]), ("JJA", [6, 7, 8]), ("SON", [9, 10, 11])]

/-- Lower-casing, for the case-insensitive `%B` month-name match of `strptime`. -/
def lowerStr (s : String) : String := String.mk (s.toList.map Char.toLower)

/-- The long-form month names accepted by `pd.to_datetime(period, format='%B')`. -/
def monthNames : List String :=
  ["January", "February", "March", "April", "May", "June", "July", "August",
   "September", "October", "November", "December"]

/-- The value `pd.to_datetime(period, format='%B').month`: the month number of a
long-form month name (case-insensitively), if it parses. -/
def parseMonth (p : String) : Option ℕ :=
  (monthNames.findIdx? (fun m => lowerStr m == lowerStr p)).map (· + 1)

/-- The period filter applied to the depth-filtered observations: `None` and
the empty string are falsy and skip filtering; a season code keeps its three
months; otherwise the string must parse as a month name or `pd.to_datetime`
raises `ValueError`. -/
def periodFilter (period : Option String) (l : List Obs) : Except Err (List Obs) :=
  match period with
  | none => .ok l
  | some p =>
      if p = "" then .ok l
      else
        match seasons.lookup p with
        | some ms => .ok (l.filter fun o => ms.contains o.month)
        | none =>
            match parseMonth p with
            | some m => .ok (l.filter fun o => o.month == m)
            | none => .error .invalidPeriod

/-- The statement `current_df = pd.DataFrame({'speed': speed, 'direction': direction})`:
a fresh frame holding copies of the filtered speed and direction values. -/
def mkCurrentDf (obs : List Obs) : List CRow :=
  obs.map fun o => ⟨o.velocidade, o.direcao, none, none⟩

/-- The statement `current_df['DirBin'] = pd.cut(current_df['direction'], bins=bins_dir,
right=False, labels=labels_dir)`. -/
def assignDirBin (rows : List CRow) : List CRow :=
  rows.map fun r => { r with dirBin := cutIdx dirEdges r.direction }

/-- The override `current_df.loc[current_df['direction'] > 345, 'DirBin'] = 0`. -/
def overrideWrap (rows : List CRow) : List CRow :=
  rows.map fun r => if 345 < r.direction then { r with dirBin := some 0 } else r

/-- The statement `current_df['SpeedBin'] = pd.cut(current_df['speed'], bins=speed_thresholds,
right=False, labels=labels_speed)`. -/
def assignSpeedBin (ts : List ℚ) (rows : List CRow) : List CRow :=
  rows.map fun r => { r with speedBin := cutIdx ts r.speed }

/-- The fully processed `current_df`. -/
def processedRows (obs : List Obs) (ts : List ℚ) : List CRow :=
  assignSpeedBin ts (overrideWrap (assignDirBin (mkCurrentDf obs)))

/-- The row of `processedRows` produced from one observation. -/
def procRow (ts : List ℚ) (o : Obs) : CRow :=
  ⟨o.velocidade, o.direcao, dirBinIdx o.direcao, cutIdx ts o.velocidade⟩

/-- The `pd.crosstab` count of observations in speed bin `i` and sector `j`
(rows with a `NaN` in either factor are dropped). -/
def cellCount (rows : List CRow) (i j : ℕ) : ℕ :=
  (rows.filter fun r => decide (r.speedBin = some i ∧ r.dirBin = some j)).length

/-- Whether speed-bin category `i` survives in the crosstab (default
`dropna=True` drops categories with no counted observation). -/
def rowKept (rows : List CRow) (i : ℕ) : Bool :=
  rows.any fun r => decide (r.speedBin = some i) && r.dirBin.isSome

/-- Whether sector category `j` survives in the crosstab. -/
def colKept (rows : List CRow) (j : ℕ) : Bool :=
  rows.any fun r => decide (r.dirBin = some j) && r.speedBin.isSome

/-- The surviving speed-bin indices, in category (threshold) order. -/
def survRows (rows : List CRow) (ts : List ℚ) : List ℕ :=
  (List.range (ts.length - 1)).filter (rowKept rows)

/-- The surviving sector indices, in category order `0°, 30°, …, 330°`. -/
def survCols (rows : List CRow) : List ℕ :=
  (List.range 12).filter (colKept rows)

/-- The matrix `dist = pd.crosstab(...) * 100 / len(current_df)`: percentages
over surviving speed bins × surviving sectors. -/
def rawMatrix (rows : List CRow) (ts : List ℚ) : List (List ℚ) :=
  (survRows rows ts).map fun i =>
    (survCols rows).map fun j => (cellCount rows i j : ℚ) * 100 / (rows.length : ℚ)

/-- The cumulative step `dist.cumsum(axis=0)`: running sums down the rows. -/
def cumsum (m : List (List ℚ)) : List (List ℚ) :=
  match m with
  | [] => []
  | r :: rs => List.scanl (fun acc row => List.zipWith (· + ·) acc row) r rs

/-- The matrix after the mode branch and `dist.round(2)`. -/
def distMatrix (rows : List CRow) (ts : List ℚ) (mode : String) : List (List ℚ) :=
  (if mode == "accumulate" then cumsum (rawMatrix rows ts) else rawMatrix rows ts).map
    fun r => r.map round2

/-- The column `dist['Omni'] = dist.sum(axis=1)`: row sums of the rounded matrix. -/
def omniCol (rows : List CRow) (ts : List ℚ) (mode : String) : List ℚ :=
  (distMatrix rows ts mode).map List.sum

/-- Column `j` of a row-major matrix. -/
def colVals (m : List (List ℚ)) (j : ℕ) : List ℚ := m.map fun r => r.getD j 0

/-- Decimal rendering of a two-decimal float as Python `repr` prints it inside
the `f"{round(lo, 2)}-{round(hi, 2)}"` bin labels (always a decimal point,
trailing zeros of the two-digit fraction trimmed, at least one fraction digit). -/
def fmtQ (q : ℚ) : String :=
  let k : ℤ := round (q * 100)
  let sign := if k < 0 then "-" else ""
  let a : ℕ := k.natAbs
  let ip : ℕ := a / 100
  let f : ℕ := a % 100
  let frac :=
    if f = 0 then "0"
    else if f % 10 = 0 then toString (f / 10)
    else if f < 10 then "0" ++ toString f
    else toString f
  sign ++ toString ip ++ "." ++ frac

/-- The label `f"{round(ts[i], 2)}-{round(ts[i+1], 2)}"` of speed bin `i`. -/
def speedLabel (ts : List ℚ) (i : ℕ) : String :=
  fmtQ (round2 (ts.getD i 0)) ++ "-" ++ fmtQ (round2 (ts.getD (i + 1) 0))

/-- The crosstab row labels: labels of the surviving speed bins, in order. -/
def binLabels (rows : List CRow) (ts : List ℚ) : List String :=
  (survRows rows ts).map (speedLabel ts)

/-- Python `int(s)`: an optional sign followed by digits (after stripping
surrounding whitespace); anything else raises `ValueError`. -/
def digitsVal (cs : List Char) : Option ℕ :=
  if cs ≠ [] ∧ cs.all Char.isDigit then
    some (cs.foldl (fun acc c => acc * 10 + (c.toNat - 48)) 0)
  else none

/-- Python `int(s)` on a string, `none` for `ValueError`: surrounding
whitespace is stripped, then an optional sign followed by digits is accepted. -/
def pyIntOfString (s : String) : Option ℤ :=
  match ((s.toList.dropWhile Char.isWhitespace).reverse.dropWhile
      Char.isWhitespace).reverse with
  | '-' :: rest => (digitsVal rest).map fun n => -(n : ℤ)
  | '+' :: rest => (digitsVal rest).map fun n => (n : ℤ)
  | cs => (digitsVal cs).map fun n => (n : ℤ)

/-- The accumulate-mode relabelling
`dist.index = [f'< {int(lbl)}' for lbl in dist.index[:-3]] + [...]`:
every bin label goes through `int`, whose failure raises `ValueError`. -/
def relabelIndex (mode : String) (labels : List String) : Option (List String) :=
  if mode == "accumulate" then
    labels.mapM fun l => (pyIntOfString l).map fun n => "< " ++ toString n
  else some labels

/-- The final `dist.round(2)` applied to every numeric cell of the finished table. -/
def roundTable (t : DistTable) : DistTable where
  speedRows := t.speedRows.map fun r => (r.1, r.2.1.map round2, round2 r.2.2)
  totalRow := (t.totalRow.1.map round2, round2 t.totalRow.2)
  meanRow := (t.meanRow.1.map round2, round2 t.meanRow.2)
  maxRow := (t.maxRow.1.map round2, round2 t.maxRow.2)

/-- The table assembled from the rounded matrix: the `Omni` column, then
`dist.loc['Total'] = dist.sum()` (column sums over the bin rows, `Omni`
included), `dist.loc['Mean'] = dist.iloc[:-1].mean().round(2)` (column means
over the bin rows, `Omni` included) and
`dist.loc['Maximum'] = dist.iloc[:-2].max().round(2)` (column maxima over the
bin rows, `Omni` included). -/
def assembleTable (rows : List CRow) (ts : List ℚ) (mode : String)
    (labels : List String) : DistTable :=
  let m := distMatrix rows ts mode
  let om := omniCol rows ts mode
  let nc := (survCols rows).length
  { speedRows :=
      (List.range m.length).map fun k => (labels.getD k "", m.getD k [], om.getD k 0)
    totalRow := ((List.range nc).map fun j => (colVals m j).sum, om.sum)
    meanRow :=
      ((List.range nc).map fun j => round2 ((colVals m j).sum / (m.length : ℚ)),
        round2 (om.sum / (om.length : ℚ)))
    maxRow :=
      ((List.range nc).map fun j => round2 (((colVals m j).max?).getD 0),
        round2 ((om.max?).getD 0)) }

/-- The tail of the function after `current_df` is fully built: crosstab,
normalisation, mode branch, rounding, summary rows, accumulate relabelling
(`int` may raise), and the final column `MultiIndex` assignment, which raises
`ValueError` unless the frame has exactly 12 sector columns plus `Omni`. -/
def tableResultFromRows (rows : List CRow) (ts : List ℚ) (mode : String) :
    Except Err DistTable :=
  match relabelIndex mode (binLabels rows ts) with
  | none => .error .accumLabelValue
  | some labels =>
      if (survCols rows).length = 12 then
        .ok (roundTable (assembleTable rows ts mode labels))
      else .error .columnsLengthMismatch

/-- The function `generate_current_distribution_table(df, depth, speed_thresholds,
direction_bins, period, mode)`.  `direction_bins` is only consulted for column
labels and is fixed at its default here; the returned `DistTable` has the
default sector columns built in. -/
def generate_current_distribution_table (df : List Obs) (depth : ℚ)
    (speed_thresholds : List ℚ) (period : Option String) (mode : String) :
    Except Err DistTable :=
  match periodFilter period (df.filter fun o => decide (o.st_ocean = depth)) with
  | .error e => .error e
  | .ok obs =>
      match speedCutError speed_thresholds with
      | some e => .error e
      | none =>
          tableResultFromRows (processedRows obs speed_thresholds) speed_thresholds mode

/-- The default `speed_thresholds`, `np.arange(0, 0.51, 0.05).tolist()`. -/
def defaultThresholds : List ℚ :=
  [0, 1/20, 1/10, 3/20, 1/5, 1/4, 3/10, 7/20, 2/5, 9/20, 1/2]

/-- The objects live in a heap; the caller's frame `df` and the scratch frame
`current_df` are the only DataFrames the function's statements touch. -/
structure PyHeap where
  df : List Obs
  current_df : List CRow
deriving Repr

/-- The function re-run statement by statement over the heap: every assignment
in the source writes `current_df` (or the local `dist`); no statement assigns
to the caller's `df`, which is only read by the depth filter. -/
def generateInHeap (h : PyHeap) (depth : ℚ) (speed_thresholds : List ℚ)
    (period : Option String) (mode : String) : PyHeap × Except Err DistTable :=
  match periodFilter period (h.df.filter fun o => decide (o.st_ocean = depth)) with
  | .error e => (h, .error e)
  | .ok obs =>
      let h1 : PyHeap := { h with current_df := mkCurrentDf obs }
      let h2 : PyHeap := { h1 with current_df := assignDirBin h1.current_df }
      let h3 : PyHeap := { h2 with current_df := overrideWrap h2.current_df }
      match speedCutError speed_thresholds with
      | some e => (h3, .error e)
      | none =>
          let h4 : PyHeap :=
            { h3 with current_df := assignSpeedBin speed_thresholds h3.current_df }
          (h4, tableResultFromRows h4.current_df speed_thresholds mode)

/-- Projection used to state facts about a returned table. -/
def tableOf (e : Except Err DistTable) : DistTable := e.toOption.getD default

/-! ### Basic list lemmas -/

theorem getD_mem {α : Type} {l : List α} {k : ℕ} {d : α} (h : k < l.length) :
    l.getD k d ∈ l := by
  rw [List.getD_eq_getElem l d h]
  exact List.getElem_mem h

theorem getD_map {α β : Type} {l : List α} (f : α → β) {k : ℕ} (d : α) (e : β)
    (h : k < l.length) : (l.map f).getD k e = f (l.getD k d) := by
  rw [List.getD_eq_getElem l d h, List.getD_eq_getElem _ e (by simpa using h),
    List.getElem_map]

theorem range_map_getD {α : Type} {n k : ℕ} (f : ℕ → α) (d : α) (h : k < n) :
    ((List.range n).map f).getD k d = f k := by
  rw [getD_map f 0 d (by simpa using h), List.getD_eq_getElem _ 0 (by simpa using h),
    List.getElem_range]

theorem map_eq_range_map {α β : Type} (l : List α) (f : α → β) (d : α) :
    l.map f = (List.range l.length).map fun k => f (l.getD k d) := by
  induction l with
  | nil => rfl
  | cons a t ih =>
      simp only [List.map_cons, List.length_cons, List.range_succ_eq_map, List.map_map]
      refine congrArg₂ _ rfl ?_
      rw [ih]
      exact List.map_congr_left fun k _ => rfl

theorem filter_len_eq {α : Type} (p : α → Bool) :
    ∀ l : List α, (l.filter p).length = l.length → l.filter p = l := by
  intro l
  induction l with
  | nil => intro _; rfl
  | cons a t ih =>
      intro h
      by_cases hp : p a
      · simp only [List.filter_cons_of_pos hp, List.length_cons] at h ⊢
        rw [ih (by omega)]
      · exfalso
        simp only [List.filter_cons_of_neg hp, List.length_cons] at h
        have := List.length_filter_le p t
        omega

theorem map_add_sum (l : List ℕ) (f g : ℕ → ℚ) :
    (l.map fun j => f j + g j).sum = (l.map f).sum + (l.map g).sum := by
  induction l with
  | nil => simp
  | cons a t ih => simp [ih]; ring

theorem list_sum_div (l : List ℚ) (c : ℚ) :
    (l.map fun x => x / c).sum = l.sum / c := by
  induction l with
  | nil => simp
  | cons a t ih => simp [ih, add_div]

/-! ### Monotone bin edges and `cutIdx` -/

theorem hasDecrease_cons {a : ℚ} {l : List ℚ} (h : hasDecrease (a :: l) = false) :
    hasDecrease l = false := by
  cases l with
  | nil => rfl
  | cons b r =>
      simp only [hasDecrease, Bool.or_eq_false_iff, decide_eq_false_iff_not] at h
      exact h.2

theorem noDecrease_head_le {l : List ℚ} (h : hasDecrease l = false) :
    ∀ k, k < l.length → l.getD 0 0 ≤ l.getD k 0 := by
  induction l with
  | nil => intro k hk; simp at hk
  | cons a t ih =>
      intro k hk
      cases k with
      | zero => simp
      | succ k =>
          cases t with
          | nil => simp at hk
          | cons b r =>
              simp only [hasDecrease, Bool.or_eq_false_iff,
                decide_eq_false_iff_not] at h
              have hb := ih h.2 k (by simp at hk ⊢; omega)
              simp only [List.getD_cons_succ, List.getD_cons_zero] at hb ⊢
              calc a ≤ b := le_of_not_lt h.1
                _ ≤ _ := hb

theorem cutIdx_some_lt : ∀ (ts : List ℚ) (s : ℚ) (i : ℕ),
    cutIdx ts s = some i → i + 1 < ts.length
  | [], s, i, h => by simp [cutIdx] at h
  | [e0], s, i, h => by simp [cutIdx] at h
  | e0 :: e1 :: rest, s, i, h => by
      by_cases h0 : e0 ≤ s ∧ s < e1
      · simp only [cutIdx, if_pos h0, Option.some.injEq] at h
        subst h
        simp
      · simp only [cutIdx, if_neg h0, Option.map_eq_some'] at h
        obtain ⟨a, ha, rfl⟩ := h
        have := cutIdx_some_lt (e1 :: rest) s a ha
        simp only [List.length_cons] at this ⊢
        omega

theorem cutIdx_some_iff : ∀ (ts : List ℚ), hasDecrease ts = false → ∀ (s : ℚ) (i : ℕ),
    (cutIdx ts s = some i ↔
      i + 1 < ts.length ∧ ts.getD i 0 ≤ s ∧ s < ts.getD (i + 1) 0)
  | [], _, s, i => by
      simp only [cutIdx, List.length_nil]
      constructor
      · intro h; cases h
      · rintro ⟨h, -⟩; omega
  | [e0], _, s, i => by
      simp only [cutIdx, List.length_cons, List.length_nil]
      constructor
      · intro h; cases h
      · rintro ⟨h, -⟩; omega
  | e0 :: e1 :: rest, hm, s, i => by
      have hm2 : hasDecrease (e1 :: rest) = false := hasDecrease_cons hm
      have ihr := cutIdx_some_iff (e1 :: rest) hm2 s
      by_cases h0 : e0 ≤ s ∧ s < e1
      · rw [show cutIdx (e0 :: e1 :: rest) s = some 0 by simp [cutIdx, h0]]
        cases i with
        | zero =>
            simp only [Option.some.injEq, List.getD_cons_zero, List.getD_cons_succ,
              List.length_cons]
            exact ⟨fun _ => ⟨by omega, h0.1, by simpa using h0.2⟩, fun _ => trivial⟩
        | succ k =>
            constructor
            · intro hc; cases hc
            · rintro ⟨hlen, hle, -⟩
              exfalso
              simp only [List.getD_cons_succ] at hle
              have he1 : e1 ≤ (e1 :: rest).getD k 0 := by
                have := noDecrease_head_le hm2 k
                  (by simp at hlen ⊢; omega)
                simpa using this
              have := h0.2
              linarith
      · rw [show cutIdx (e0 :: e1 :: rest) s = (cutIdx (e1 :: rest) s).map (· + 1) by
          simp [cutIdx, h0]]
        cases i with
        | zero =>
            constructor
            · intro hc
              rw [Option.map_eq_some'] at hc
              obtain ⟨a, -, ha⟩ := hc
              omega
            · rintro ⟨-, hle, hlt⟩
              exact absurd ⟨by simpa using hle, by simpa using hlt⟩ h0
        | succ k =>
            constructor
            · intro hc
              rw [Option.map_eq_some'] at hc
              obtain ⟨a, ha, hak⟩ := hc
              have hk : a = k := by omega
              subst hk
              obtain ⟨h1, h2, h3⟩ := (ihr a).mp ha
              refine ⟨by simp at h1 ⊢; omega, by simpa using h2, by simpa using h3⟩
            · rintro ⟨h1, h2, h3⟩
              rw [Option.map_eq_some']
              refine ⟨k, (ihr k).mpr ⟨by simp at h1 ⊢; omega, by simpa using h2,
                by simpa using h3⟩, rfl⟩

/-! ### The processed `current_df` -/

theorem processedRows_eq (obs : List Obs) (ts : List ℚ) :
    processedRows obs ts = obs.map (procRow ts) := by
  unfold processedRows assignSpeedBin overrideWrap assignDirBin mkCurrentDf
  rw [List.map_map, List.map_map, List.map_map]
  refine List.map_congr_left fun o _ => ?_
  simp only [Function.comp]
  by_cases h : 345 < o.direcao <;> simp [h, procRow, dirBinIdx]

theorem processedRows_length (obs : List Obs) (ts : List ℚ) :
    (processedRows obs ts).length = obs.length := by
  rw [processedRows_eq]; exact List.length_map obs (procRow ts)

/-! ### Two-decimal values and rounding -/

/-- A rational that is an integer multiple of `1/100` (a value already rounded
to two decimals). -/
def Cent (q : ℚ) : Prop := ∃ k : ℤ, q = (k : ℚ) / 100

theorem cent_round2 (q : ℚ) : Cent (round2 q) := ⟨round (q * 100), rfl⟩

theorem round2_eq_self {q : ℚ} (h : Cent q) : round2 q = q := by
  obtain ⟨k, rfl⟩ := h
  rw [round2, div_mul_cancel₀ _ (by norm_num : (100 : ℚ) ≠ 0), round_intCast]

theorem cent_zero : Cent 0 := ⟨0, by norm_num⟩

theorem cent_add {a b : ℚ} (ha : Cent a) (hb : Cent b) : Cent (a + b) := by
  obtain ⟨ka, rfl⟩ := ha
  obtain ⟨kb, rfl⟩ := hb
  exact ⟨ka + kb, by push_cast; ring⟩

theorem cent_sum {l : List ℚ} (h : ∀ x ∈ l, Cent x) : Cent l.sum := by
  induction l with
  | nil => simpa using cent_zero
  | cons a t ih =>
      rw [List.sum_cons]
      exact cent_add (h a (by simp)) (ih fun x hx => h x (List.mem_cons_of_mem a hx))

theorem cent_max {a b : ℚ} (ha : Cent a) (hb : Cent b) : Cent (max a b) := by
  rcases le_total a b with h | h
  · rwa [max_eq_right h]
  · rwa [max_eq_left h]

theorem cent_foldl_max {l : List ℚ} {a : ℚ} (ha : Cent a) (h : ∀ x ∈ l, Cent x) :
    Cent (l.foldl max a) := by
  induction l generalizing a with
  | nil => simpa using ha
  | cons b t ih =>
      rw [List.foldl_cons]
      exact ih (cent_max ha (h b (by simp))) fun x hx => h x (List.mem_cons_of_mem b hx)

theorem cent_maxD {l : List ℚ} (h : ∀ x ∈ l, Cent x) : Cent ((l.max?).getD 0) := by
  cases hm : l.max? with
  | none => simpa using cent_zero
  | some a =>
      have ha : a ∈ l := List.max?_mem (fun x y => max_choice x y) hm
      simpa using h a ha

theorem cent_getD {r : List ℚ} (h : ∀ x ∈ r, Cent x) (j : ℕ) : Cent (r.getD j 0) := by
  by_cases hj : j < r.length
  · exact h _ (getD_mem hj)
  · rw [List.getD_eq_default _ _ (by omega)]
    exact cent_zero

theorem map_round2_id {l : List ℚ} (h : ∀ x ∈ l, Cent x) : l.map round2 = l := by
  induction l with
  | nil => rfl
  | cons a t ih =>
      rw [List.map_cons, round2_eq_self (h a (by simp)), ih fun x hx => h x (by simp [hx])]

theorem abs_round2_sub (q : ℚ) : |round2 q - q| ≤ 1 / 200 := by
  have h : |((round (q * 100) : ℤ) : ℚ) - q * 100| ≤ 1 / 2 := by
    rw [abs_sub_comm]
    exact abs_sub_round (q * 100)
  have he : round2 q - q = (((round (q * 100) : ℤ) : ℚ) - q * 100) / 100 := by
    rw [round2]; ring
  rw [he, abs_div, abs_of_pos (by norm_num : (0:ℚ) < 100)]
  linarith

theorem sum_round2_err (l : List ℚ) : |(l.map round2).sum - l.sum| ≤ (l.length : ℚ) / 200 := by
  induction l with
  | nil => simp
  | cons a t ih =>
      rw [List.map_cons, List.sum_cons, List.sum_cons, List.length_cons]
      have h1 : round2 a + (t.map round2).sum - (a + t.sum) =
          (round2 a - a) + ((t.map round2).sum - t.sum) := by ring
      rw [h1]
      calc |(round2 a - a) + ((t.map round2).sum - t.sum)|
          ≤ |round2 a - a| + |(t.map round2).sum - t.sum| := abs_add _ _
        _ ≤ 1 / 200 + (t.length : ℚ) / 200 := by
            have := abs_round2_sub a
            linarith
        _ = ((t.length : ℚ) + 1) / 200 := by ring
        _ = (((t.length : ℕ) + 1 : ℕ) : ℚ) / 200 := by push_cast; ring

/-! ### Shapes of the intermediate matrices -/

theorem rawMatrix_length (rows : List CRow) (ts : List ℚ) :
    (rawMatrix rows ts).length = (survRows rows ts).length := by
  simp [rawMatrix]

theorem rawMatrix_row_length (rows : List CRow) (ts : List ℚ) :
    ∀ r ∈ rawMatrix rows ts, r.length = (survCols rows).length := by
  intro r hr
  simp only [rawMatrix, List.mem_map] at hr
  obtain ⟨i, -, rfl⟩ := hr
  simp

theorem scanl_row_length {n : ℕ} :
    ∀ (rs : List (List ℚ)) (acc : List ℚ), acc.length = n → (∀ r ∈ rs, r.length = n) →
      ∀ x ∈ List.scanl (fun a b => List.zipWith (· + ·) a b) acc rs, x.length = n := by
  intro rs
  induction rs with
  | nil =>
      intro acc ha _ x hx
      simp only [List.scanl, List.mem_singleton] at hx
      subst hx
      exact ha
  | cons r t ih =>
      intro acc ha hall x hx
      simp only [List.scanl, List.mem_cons] at hx
      rcases hx with rfl | hx
      · exact ha
      · refine ih (List.zipWith (· + ·) acc r) ?_ (fun y hy => hall y (by simp [hy])) x hx
        rw [List.length_zipWith, ha, hall r (by simp)]
        exact min_self n

theorem cumsum_length (m : List (List ℚ)) : (cumsum m).length = m.length := by
  cases m with
  | nil => rfl
  | cons r rs => simp [cumsum, List.length_scanl]

theorem cumsum_row_length {m : List (List ℚ)} {n : ℕ} (h : ∀ r ∈ m, r.length = n) :
    ∀ r ∈ cumsum m, r.length = n := by
  cases m with
  | nil => intro r hr; simp [cumsum] at hr
  | cons r rs =>
      intro x hx
      exact scanl_row_length rs r (h r (by simp)) (fun y hy => h y (by simp [hy])) x hx

theorem distMatrix_length (rows : List CRow) (ts : List ℚ) (mode : String) :
    (distMatrix rows ts mode).length = (survRows rows ts).length := by
  by_cases hm : (mode == "accumulate") = true <;>
    simp [distMatrix, hm, cumsum_length, rawMatrix_length]

theorem distMatrix_row_length (rows : List CRow) (ts : List ℚ) (mode : String) :
    ∀ r ∈ distMatrix rows ts mode, r.length = (survCols rows).length := by
  intro r hr
  by_cases hm : (mode == "accumulate") = true <;> simp only [distMatrix, hm, if_pos,
    if_neg, Bool.false_eq_true, if_true, if_false, List.mem_map] at hr
  · obtain ⟨r0, hr0, rfl⟩ := hr
    rw [List.length_map]
    exact cumsum_row_length (rawMatrix_row_length rows ts) r0 hr0
  · obtain ⟨r0, hr0, rfl⟩ := hr
    rw [List.length_map]
    exact rawMatrix_row_length rows ts r0 hr0

theorem omniCol_eq (rows : List CRow) (ts : List ℚ) (mode : String) :
    omniCol rows ts mode = (distMatrix rows ts mode).map List.sum := rfl

theorem omniCol_length (rows : List CRow) (ts : List ℚ) (mode : String) :
    (omniCol rows ts mode).length = (distMatrix rows ts mode).length := by
  simp [omniCol]

theorem distMatrix_cent (rows : List CRow) (ts : List ℚ) (mode : String) :
    ∀ r ∈ distMatrix rows ts mode, ∀ x ∈ r, Cent x := by
  intro r hr x hx
  simp only [distMatrix, List.mem_map] at hr
  rcases hr with ⟨r0, -, rfl⟩
  simp only [List.mem_map] at hx
  obtain ⟨y, -, rfl⟩ := hx
  exact cent_round2 y

theorem omniCol_cent (rows : List CRow) (ts : List ℚ) (mode : String) :
    ∀ x ∈ omniCol rows ts mode, Cent x := by
  intro x hx
  simp only [omniCol, List.mem_map] at hx
  obtain ⟨r, hr, rfl⟩ := hx
  exact cent_sum fun y hy => distMatrix_cent rows ts mode r hr y hy

/-! ### Column sums versus row sums -/

theorem sum_eq_range_sum : ∀ (r : List ℚ) (n : ℕ), r.length = n →
    r.sum = ((List.range n).map fun j => r.getD j 0).sum := by
  intro r
  induction r with
  | nil => intro n h; subst h; simp
  | cons a t ih =>
      intro n h
      subst h
      rw [List.length_cons, List.range_succ_eq_map, List.map_cons, List.sum_cons,
        List.sum_cons, List.map_map]
      refine congrArg₂ _ (by simp) ?_
      rw [ih t.length rfl]
      refine congrArg _ (List.map_congr_left fun k _ => ?_)
      simp [Function.comp]

theorem colVals_cons (r : List ℚ) (m : List (List ℚ)) (j : ℕ) :
    colVals (r :: m) j = r.getD j 0 :: colVals m j := rfl

theorem sum_swap {m : List (List ℚ)} {n : ℕ} (h : ∀ r ∈ m, r.length = n) :
    (m.map List.sum).sum = ((List.range n).map fun j => (colVals m j).sum).sum := by
  induction m with
  | nil =>
      simp only [List.map_nil, List.sum_nil]
      rw [eq_comm, List.sum_eq_zero]
      intro x hx
      simp only [List.mem_map] at hx
      obtain ⟨j, -, rfl⟩ := hx
      simp [colVals]
  | cons r t ih =>
      rw [List.map_cons, List.sum_cons, ih fun x hx => h x (by simp [hx])]
      have hcv : ∀ j : ℕ, (colVals (r :: t) j).sum = r.getD j 0 + (colVals t j).sum := by
        intro j; rw [colVals_cons, List.sum_cons]
      calc r.sum + ((List.range n).map fun j => (colVals t j).sum).sum
          = ((List.range n).map fun j => r.getD j 0).sum +
              ((List.range n).map fun j => (colVals t j).sum).sum := by
            rw [sum_eq_range_sum r n (h r (by simp))]
        _ = ((List.range n).map fun j => r.getD j 0 + (colVals t j).sum).sum := by
            rw [map_add_sum]
        _ = ((List.range n).map fun j => (colVals (r :: t) j).sum).sum := by
            refine congrArg _ (List.map_congr_left fun j _ => (hcv j).symm)

/-! ### The final `dist.round(2)` is the identity on the assembled table -/

theorem colVals_cent {m : List (List ℚ)} (h : ∀ r ∈ m, ∀ x ∈ r, Cent x) (j : ℕ) :
    ∀ x ∈ colVals m j, Cent x := by
  intro x hx
  simp only [colVals, List.mem_map] at hx
  obtain ⟨r, hr, rfl⟩ := hx
  exact cent_getD (h r hr) j

theorem roundTable_assemble (rows : List CRow) (ts : List ℚ) (mode : String)
    (labels : List String) :
    roundTable (assembleTable rows ts mode labels) = assembleTable rows ts mode labels := by
  have hm := distMatrix_cent rows ts mode
  have hom := omniCol_cent rows ts mode
  unfold roundTable assembleTable
  simp only [List.map_map]
  congr 1
  · refine List.map_congr_left fun k hk => ?_
    have hk2 : k < (distMatrix rows ts mode).length := List.mem_range.mp hk
    simp only [Function.comp]
    rw [map_round2_id fun x hx => hm _ (getD_mem hk2) x hx, round2_eq_self (cent_getD hom k)]
  · refine congrArg₂ _ (List.map_congr_left fun j _ => ?_) (round2_eq_self (cent_sum hom))
    simp only [Function.comp]
    exact round2_eq_self (cent_sum (colVals_cent hm j))
  · refine congrArg₂ _ (List.map_congr_left fun j _ => ?_) (round2_eq_self (cent_round2 _))
    simp only [Function.comp]
    exact round2_eq_self (cent_round2 _)
  · refine congrArg₂ _ (List.map_congr_left fun j _ => ?_) (round2_eq_self (cent_round2 _))
    simp only [Function.comp]
    exact round2_eq_self (cent_round2 _)

/-! ### Inverting a successful run -/

theorem survCols_full {rows : List CRow} (h : (survCols rows).length = 12) :
    survCols rows = List.range 12 := by
  have h2 := filter_len_eq (colKept rows) (List.range 12) (by simpa [survCols] using h)
  simpa [survCols] using h2

theorem speedCutError_none_noDecrease {ts : List ℚ} (h : speedCutError ts = none) :
    hasDecrease ts = false := by
  by_cases hd : hasDecrease ts = true
  · rw [speedCutError, if_pos hd] at h
    cases h
  · simpa using hd

theorem generate_ok {df : List Obs} {depth : ℚ} {ts : List ℚ} {period : Option String}
    {mode : String} {T : DistTable}
    (h : generate_current_distribution_table df depth ts period mode = .ok T) :
    ∃ obs labels,
      periodFilter period (df.filter fun o => decide (o.st_ocean = depth)) = .ok obs ∧
      speedCutError ts = none ∧
      relabelIndex mode (binLabels (processedRows obs ts) ts) = some labels ∧
      (survCols (processedRows obs ts)).length = 12 ∧
      T = assembleTable (processedRows obs ts) ts mode labels := by
  unfold generate_current_distribution_table at h
  cases hpf : periodFilter period (df.filter fun o => decide (o.st_ocean = depth)) with
  | error e => rw [hpf] at h; simp at h
  | ok obs =>
      rw [hpf] at h
      simp only at h
      cases hd : speedCutError ts with
      | some e => rw [hd] at h; simp at h
      | none =>
          rw [hd] at h
          simp only at h
          unfold tableResultFromRows at h
          cases hrl : relabelIndex mode (binLabels (processedRows obs ts) ts) with
          | none => rw [hrl] at h; simp at h
          | some labels =>
              rw [hrl] at h
              simp only at h
              by_cases h12 : (survCols (processedRows obs ts)).length = 12
              · rw [if_pos h12] at h
                injection h with h2
                exact ⟨obs, labels, rfl, rfl, hrl, h12, by rw [← h2, roundTable_assemble]⟩
              · rw [if_neg h12] at h; simp at h

/-! ### Reading the assembled table's fields -/

theorem assemble_speedRows_length (rows : List CRow) (ts : List ℚ) (mode : String)
    (labels : List String) :
    (assembleTable rows ts mode labels).speedRows.length =
      (distMatrix rows ts mode).length := by
  simp [assembleTable]

theorem assemble_speedRows_getD (rows : List CRow) (ts : List ℚ) (mode : String)
    (labels : List String) {k : ℕ} (hk : k < (distMatrix rows ts mode).length) :
    (assembleTable rows ts mode labels).speedRows.getD k ("", [], 0) =
      (labels.getD k "", (distMatrix rows ts mode).getD k [],
        (omniCol rows ts mode).getD k 0) := by
  unfold assembleTable
  simp only
  exact range_map_getD _ _ hk

theorem assemble_totalRow (rows : List CRow) (ts : List ℚ) (mode : String)
    (labels : List String) :
    (assembleTable rows ts mode labels).totalRow =
      ((List.range (survCols rows).length).map fun j =>
          (colVals (distMatrix rows ts mode) j).sum,
        (omniCol rows ts mode).sum) := rfl

theorem assemble_meanRow (rows : List CRow) (ts : List ℚ) (mode : String)
    (labels : List String) :
    (assembleTable rows ts mode labels).meanRow =
      ((List.range (survCols rows).length).map fun j =>
          round2 ((colVals (distMatrix rows ts mode) j).sum /
            ((distMatrix rows ts mode).length : ℚ)),
        round2 ((omniCol rows ts mode).sum / ((omniCol rows ts mode).length : ℚ))) := rfl

theorem assemble_maxRow (rows : List CRow) (ts : List ℚ) (mode : String)
    (labels : List String) :
    (assembleTable rows ts mode labels).maxRow =
      ((List.range (survCols rows).length).map fun j =>
          round2 (((colVals (distMatrix rows ts mode) j).max?).getD 0),
        round2 (((omniCol rows ts mode).max?).getD 0)) := rfl

theorem assemble_speedRows_map_cell (rows : List CRow) (ts : List ℚ) (mode : String)
    (labels : List String) (j : ℕ) :
    (assembleTable rows ts mode labels).speedRows.map (fun r => r.2.1.getD j 0) =
      colVals (distMatrix rows ts mode) j := by
  unfold assembleTable
  simp only [List.map_map]
  rw [colVals, map_eq_range_map (distMatrix rows ts mode) (fun r => r.getD j 0) []]
  exact List.map_congr_left fun k _ => rfl

theorem assemble_speedRows_map_omni (rows : List CRow) (ts : List ℚ) (mode : String)
    (labels : List String) :
    (assembleTable rows ts mode labels).speedRows.map (fun r => r.2.2) =
      omniCol rows ts mode := by
  unfold assembleTable
  simp only [List.map_map]
  conv_rhs => rw [← List.map_id (omniCol rows ts mode),
    map_eq_range_map (omniCol rows ts mode) id 0]
  rw [omniCol_length]
  exact List.map_congr_left fun k _ => rfl

/-! ### More helpers: processed rows, empty survivors, cumulative last row -/

theorem processed_speedBin {obs : List Obs} {ts : List ℚ} :
    ∀ r ∈ processedRows obs ts, r.speedBin = cutIdx ts r.speed := by
  rw [processedRows_eq]
  intro r hr
  simp only [List.mem_map] at hr
  obtain ⟨o, -, rfl⟩ := hr
  rfl

theorem relabelIndex_nil (mode : String) : relabelIndex mode [] = some [] := by
  unfold relabelIndex
  by_cases hm : (mode == "accumulate") = true
  · rw [if_pos hm]
    rfl
  · rw [if_neg hm]

theorem tableResult_no_cols {rows : List CRow} {ts : List ℚ} (mode : String)
    (hsr : survRows rows ts = []) (hsc : survCols rows = []) :
    tableResultFromRows rows ts mode = .error .columnsLengthMismatch := by
  unfold tableResultFromRows
  rw [show binLabels rows ts = [] from by simp [binLabels, hsr], relabelIndex_nil, hsc]
  simp

theorem survRows_ne_nil {obs : List Obs} {ts : List ℚ}
    (h : (survCols (processedRows obs ts)).length = 12) :
    survRows (processedRows obs ts) ts ≠ [] := by
  have hj : (0 : ℕ) ∈ survCols (processedRows obs ts) := by
    rw [survCols_full h]
    simp
  simp only [survCols, List.mem_filter] at hj
  have hk := hj.2
  simp only [colKept, List.any_eq_true, Bool.and_eq_true, decide_eq_true_eq] at hk
  obtain ⟨r, hr, hdir, hsp⟩ := hk
  obtain ⟨i, hi⟩ := Option.isSome_iff_exists.mp hsp
  have hcut : cutIdx ts r.speed = some i := by rw [← processed_speedBin r hr, hi]
  have hlen := cutIdx_some_lt ts r.speed i hcut
  intro hc
  have hmem : i ∈ survRows (processedRows obs ts) ts := by
    simp only [survRows, List.mem_filter, List.mem_range]
    refine ⟨by omega, ?_⟩
    simp only [rowKept, List.any_eq_true, Bool.and_eq_true, decide_eq_true_eq]
    exact ⟨r, hr, hi, by simp [hdir]⟩
  rw [hc] at hmem
  simp at hmem

theorem zipWith_getD {a b : List ℚ} {n j : ℕ} (ha : a.length = n) (hb : b.length = n)
    (hj : j < n) : (List.zipWith (· + ·) a b).getD j 0 = a.getD j 0 + b.getD j 0 := by
  have hl : (List.zipWith (· + ·) a b).length = n := by
    rw [List.length_zipWith, ha, hb, min_self]
  rw [List.getD_eq_getElem _ _ (by omega : j < (List.zipWith (· + ·) a b).length),
    List.getD_eq_getElem _ _ (by omega : j < a.length),
    List.getD_eq_getElem _ _ (by omega : j < b.length), List.getElem_zipWith]

theorem foldl_zip_getD {n j : ℕ} (hj : j < n) :
    ∀ (rs : List (List ℚ)) (acc : List ℚ), acc.length = n → (∀ r ∈ rs, r.length = n) →
      (rs.foldl (fun a b => List.zipWith (· + ·) a b) acc).getD j 0 =
        acc.getD j 0 + (rs.map fun r => r.getD j 0).sum := by
  intro rs
  induction rs with
  | nil => intro acc _ _; simp
  | cons r t ih =>
      intro acc ha hall
      rw [List.foldl_cons,
        ih (List.zipWith (· + ·) acc r)
          (by rw [List.length_zipWith, ha, hall r (by simp), min_self])
          (fun y hy => hall y (List.mem_cons_of_mem r hy)),
        zipWith_getD ha (hall r (by simp)) hj, List.map_cons, List.sum_cons]
      ring

theorem scanl_getLast (f : List ℚ → List ℚ → List ℚ) :
    ∀ (l : List (List ℚ)) (b : List ℚ),
      (List.scanl f b l).getLast?.getD [] = l.foldl f b
  | [], b => by simp [List.scanl]
  | a :: t, b => by
      rw [List.scanl, List.foldl_cons, ← scanl_getLast f t (f b a)]
      cases hl : List.scanl f (f b a) t with
      | nil =>
          exfalso
          have := List.length_scanl (f := f) (f b a) t
          rw [hl] at this
          simp at this
      | cons c cs => rw [List.getLast?_cons_cons]

theorem cumsum_getLast_getD {m : List (List ℚ)} {n j : ℕ} (hne : m ≠ [])
    (hlen : ∀ r ∈ m, r.length = n) (hj : j < n) :
    ((cumsum m).getLast?.getD []).getD j 0 = (colVals m j).sum := by
  cases m with
  | nil => exact absurd rfl hne
  | cons r rs =>
      rw [show cumsum (r :: rs) =
          List.scanl (fun a b => List.zipWith (· + ·) a b) r rs from rfl,
        scanl_getLast _ rs r,
        foldl_zip_getD hj rs r (hlen r (by simp))
          (fun y hy => hlen y (List.mem_cons_of_mem r hy)),
        colVals_cons, List.sum_cons]
      rfl

theorem getLastD_map (f : List ℚ → List ℚ) :
    ∀ l : List (List ℚ), (l.map f).getLast? = (l.getLast?).map f
  | [] => rfl
  | [a] => rfl
  | a :: b :: t => by
      rw [List.map_cons, List.map_cons, List.getLast?_cons_cons, List.getLast?_cons_cons,
        ← List.map_cons f b t]
      exact getLastD_map f (b :: t)

/-! ### Concrete inputs used by counterexamples and witnesses -/

/-- One observation at depth `5/2`, month 1, speed `1/20`, direction `0`. -/
def oneObs : List Obs := [⟨1, 5/2, 1/20, 0⟩]

/-- Twenty observations at depth `5/2` covering all 12 sectors: 13 with speed `1/2`
(speed bin `[0,1)`, two of them in sector 0) and 7 with speed `3/2` (speed bin
`[1,2)`: one in sector 0 and six in sector 1). -/
def mixedObs : List Obs :=
  [⟨1, 5/2, 1/2, 0⟩, ⟨1, 5/2, 1/2, 0⟩, ⟨1, 5/2, 1/2, 30⟩, ⟨1, 5/2, 1/2, 60⟩,
   ⟨1, 5/2, 1/2, 90⟩, ⟨1, 5/2, 1/2, 120⟩, ⟨1, 5/2, 1/2, 150⟩, ⟨1, 5/2, 1/2, 180⟩,
   ⟨1, 5/2, 1/2, 210⟩, ⟨1, 5/2, 1/2, 240⟩, ⟨1, 5/2, 1/2, 270⟩, ⟨1, 5/2, 1/2, 300⟩,
   ⟨1, 5/2, 1/2, 330⟩,
   ⟨1, 5/2, 3/2, 0⟩, ⟨1, 5/2, 3/2, 30⟩, ⟨1, 5/2, 3/2, 30⟩, ⟨1, 5/2, 3/2, 30⟩,
   ⟨1, 5/2, 3/2, 30⟩, ⟨1, 5/2, 3/2, 30⟩, ⟨1, 5/2, 3/2, 30⟩]

/-- The table built from `mixedObs` with thresholds `[0, 1, 2]` in bins mode. -/
def mixedResult : Except Err DistTable :=
  generate_current_distribution_table mixedObs (5/2) [0, 1, 2] none "bins"

/-- Three observations, all in sector 0, with speeds in three consecutive bins
of `[0, 0.1, 0.2, 0.3]` (each is 1/3 of the data). -/
def tripleObs : List Obs := [⟨1, 5/2, 1/20, 0⟩, ⟨1, 5/2, 3/20, 0⟩, ⟨1, 5/2, 1/4, 0⟩]

/-! ### C1 -/

/-- C1 counterexample: the claim says every direction in `[345°, 360°)` lands in
the 0°-centred sector, but direction exactly `345°` is assigned no sector at all
(the `pd.cut` intervals stop at `[315, 345)` and the wrap-around override only
catches directions strictly greater than `345`), so the observation is dropped. -/
theorem C1_counterexample :
    (345 : ℚ) ≤ 345 ∧ (345 : ℚ) < 360 ∧ dirBinIdx 345 = none ∧
      ¬ dirBinIdx 345 = some 0 := by decide

/-- C1 (amended): direction-sector assignment puts a direction in the 30°-wide
sector containing it after shifting bin edges by −15°; the 0°-centred sector
absorbs `[0°, 15°)` and `(345°, 360°)`, while direction exactly `345°` falls in
no sector; in particular 350° and 14° land in the 0°-centred sector and 16° in
the 30°-centred sector. -/
theorem C1_direction_sector_assignment (d : ℚ) :
    (0 ≤ d → d < 15 → dirBinIdx d = some 0) ∧
    (345 < d → dirBinIdx d = some 0) ∧
    (∀ i : ℕ, 1 ≤ i → i < 12 → -15 + 30 * (i : ℚ) ≤ d → d < 15 + 30 * (i : ℚ) →
      dirBinIdx d = some i) ∧
    dirBinIdx 345 = none ∧ dirBinIdx 350 = some 0 ∧ dirBinIdx 14 = some 0 ∧
    dirBinIdx 16 = some 1 := by
  refine ⟨?_, ?_, ?_, by decide, by decide, by decide, by decide⟩
  · intro h1 h2
    rw [dirBinIdx, if_neg (by linarith)]
    refine (cutIdx_some_iff dirEdges (by decide) d 0).mpr ⟨by simp [dirEdges], ?_, ?_⟩ <;>
      · simp only [dirEdges, List.getD_cons_zero, List.getD_cons_succ]
        linarith
  · intro h
    rw [dirBinIdx, if_pos h]
  · intro i h1 h2 h3 h4
    interval_cases i <;>
    · push_cast at h3 h4
      rw [dirBinIdx, if_neg (by linarith)]
      refine (cutIdx_some_iff dirEdges (by decide) d _).mpr ⟨by simp [dirEdges], ?_, ?_⟩ <;>
      · simp only [dirEdges, List.getD_cons_zero, List.getD_cons_succ]
        linarith

/-- Witness for C1: concrete sector assignments through the amended theorem. -/
theorem C1_direction_sector_assignment_witness :
    dirBinIdx 7 = some 0 ∧ dirBinIdx 100 = some 3 := by
  constructor
  · exact (C1_direction_sector_assignment 7).1 (by norm_num) (by norm_num)
  · exact (C1_direction_sector_assignment 100).2.2.1 3 (by norm_num) (by norm_num)
      (by norm_num) (by norm_num)

/-! ### C4 -/

/-- C4: in accumulate mode the relabelling statement applies Python `int()` to a
`"lo-hi"` bin label (here `int("0.0-0.1")`), which raises `ValueError`; the
function never succeeds, instead of relabelling rows to `"< hi"`. -/
theorem C4_accumulate_relabel_raises :
    generate_current_distribution_table oneObs (5/2) [0, 1/10, 1/5] none "accumulate" =
      .error .accumLabelValue := by decide

/-! ### C9 -/

/-- C9: an unparseable period string such as `"Foobar"` (neither a season code
nor a `%B` month name) makes the function raise the period `ValueError`, for
every DataFrame, depth, threshold list and mode — no other error can preempt
it, since the depth filter cannot fail and the period check precedes the
speed-threshold cut. -/
theorem C9_invalid_period (df : List Obs) (depth : ℚ) (ts : List ℚ) (mode : String) :
    generate_current_distribution_table df depth ts (some "Foobar") mode =
      .error .invalidPeriod := rfl

/-! ### C10 -/

/-- C10: the caller's DataFrame is untouched: running the function over the
heap leaves the `df` field identical; every mutation in the source writes the
freshly built `current_df`. -/
theorem C10_caller_frame_preserved (h : PyHeap) (depth : ℚ) (ts : List ℚ)
    (period : Option String) (mode : String) :
    (generateInHeap h depth ts period mode).1.df = h.df := by
  unfold generateInHeap
  cases hpf : periodFilter period (h.df.filter fun o => decide (o.st_ocean = depth)) with
  | error e => rfl
  | ok obs =>
      cases hd : speedCutError ts <;> simp [hd]

/-- The heap-threaded run returns the same result as the pure function. -/
theorem generateInHeap_result (h : PyHeap) (depth : ℚ) (ts : List ℚ)
    (period : Option String) (mode : String) :
    (generateInHeap h depth ts period mode).2 =
      generate_current_distribution_table h.df depth ts period mode := by
  unfold generateInHeap generate_current_distribution_table
  cases hpf : periodFilter period (h.df.filter fun o => decide (o.st_ocean = depth)) with
  | error e => rfl
  | ok obs =>
      cases hd : speedCutError ts <;> simp [hd, processedRows]

/-! ### C3 -/

/-- C3 counterexample: with no observation at the requested depth the crosstab
is empty, so the final column `MultiIndex` assignment raises `ValueError`
(length mismatch) instead of returning an all-zero table. -/
theorem C3_counterexample :
    generate_current_distribution_table [⟨6, 1, 1/10, 90⟩] 3 [0, 1/10, 1/5] none "bins" =
      .error .columnsLengthMismatch := by decide

/-- C3 (amended): whenever the depth-and-period filter leaves no observations
and the thresholds pass `pd.cut`'s own edge validation (otherwise that earlier
`pd.cut` `ValueError` fires instead), the function raises the column
length-mismatch `ValueError` rather than producing a table, in either mode. -/
theorem C3_empty_filter_raises (df : List Obs) (depth : ℚ) (ts : List ℚ)
    (period : Option String) (mode : String)
    (hobs : periodFilter period (df.filter fun o => decide (o.st_ocean = depth)) = .ok [])
    (hv : speedCutError ts = none) :
    generate_current_distribution_table df depth ts period mode =
      .error .columnsLengthMismatch := by
  unfold generate_current_distribution_table
  rw [hobs]
  simp only [hv]
  have hpr : processedRows [] ts = [] := by rw [processedRows_eq]; rfl
  rw [hpr]
  refine tableResult_no_cols mode ?_ ?_
  · simp [survRows, rowKept]
  · simp [survCols, colKept]

/-- Witness for C3. -/
theorem C3_empty_filter_raises_witness :
    periodFilter none (([⟨1, 1, 0, 0⟩] : List Obs).filter fun o =>
      decide (o.st_ocean = 2)) = .ok [] ∧
    speedCutError [0, 1] = none ∧
    generate_current_distribution_table [⟨1, 1, 0, 0⟩] 2 [0, 1] none "bins" =
      .error .columnsLengthMismatch :=
  ⟨by decide, by decide,
    C3_empty_filter_raises [⟨1, 1, 0, 0⟩] 2 [0, 1] none "bins" (by decide) (by decide)⟩

/-! ### C8 -/

/-- C8 counterexample: with the non-increasing thresholds `[0.1, 0.05]` and the
invalid period `"Foobar"`, the function raises the period error, not a
configuration error — the threshold check does not fail fast: it happens at the
speed-binning `pd.cut`, after depth and period filtering. -/
theorem C8_counterexample :
    generate_current_distribution_table oneObs (5/2) [1/10, 1/20] (some "Foobar") "bins" =
      .error .invalidPeriod := by decide

/-- C8 (amended): there is no `InvalidConfiguration` class and no validation
before filtering: `pd.cut` inspects the thresholds only at the speed-binning
step, after depth filtering, period filtering and direction binning, and an
invalid period string preempts any threshold error (see the counterexample).
A strictly decreasing adjacent pair of thresholds raises `ValueError`
"bins must increase monotonically"; duplicate edges raise `ValueError`
"Bin edges must be unique" unless the list has exactly two entries; an empty
list raises the labels-length `ValueError` inside `pd.cut`; and a two-entry
tie `[x, x]` passes validation, bins nothing, and the run dies later at the
column `MultiIndex` assignment. -/
theorem C8_threshold_validation (df : List Obs) (depth : ℚ) (ts : List ℚ)
    (period : Option String) (mode : String) (obs : List Obs)
    (hobs : periodFilter period (df.filter fun o => decide (o.st_ocean = depth)) = .ok obs) :
    (hasDecrease ts = true →
      generate_current_distribution_table df depth ts period mode =
        .error .binsNotMonotonic) ∧
    (hasDecrease ts = false → ts.dedup.length < ts.length → ts.length ≠ 2 →
      generate_current_distribution_table df depth ts period mode =
        .error .binEdgesNotUnique) ∧
    (ts = [] →
      generate_current_distribution_table df depth ts period mode =
        .error .labelsLengthMismatch) ∧
    (∀ x : ℚ, generate_current_distribution_table df depth [x, x] period mode =
      .error .columnsLengthMismatch) := by
  refine ⟨?_, ?_, ?_, ?_⟩
  · intro hd
    have hsc : speedCutError ts = some Err.binsNotMonotonic := by
      rw [speedCutError, if_pos hd]
    unfold generate_current_distribution_table
    rw [hobs]
    simp only [hsc]
  · intro hd hdup hne
    have hsc : speedCutError ts = some Err.binEdgesNotUnique := by
      rw [speedCutError, if_neg (by rw [hd]; simp), if_pos ⟨hdup, hne⟩]
    unfold generate_current_distribution_table
    rw [hobs]
    simp only [hsc]
  · intro hnil
    subst hnil
    have hsc : speedCutError [] = some Err.labelsLengthMismatch := by decide
    unfold generate_current_distribution_table
    rw [hobs]
    simp only [hsc]
  · intro x
    have h1 : hasDecrease [x, x] = false := by
      simp [hasDecrease, lt_irrefl]
    have hsc : speedCutError [x, x] = none := by
      rw [speedCutError, if_neg (by rw [h1]; simp), if_neg (fun hc => hc.2 rfl),
        if_neg (by simp)]
    have hcut : ∀ s : ℚ, cutIdx [x, x] s = none := by
      intro s
      have hno : ¬(x ≤ s ∧ s < x) :=
        fun hc => absurd (lt_of_le_of_lt hc.1 hc.2) (lt_irrefl x)
      simp [cutIdx, hno]
    unfold generate_current_distribution_table
    rw [hobs]
    simp only [hsc]
    refine tableResult_no_cols mode ?_ ?_
    · refine List.filter_eq_nil_iff.mpr fun i _ => ?_
      rw [processedRows_eq]
      simp [rowKept, List.any_map, Function.comp, procRow, hcut]
    · refine List.filter_eq_nil_iff.mpr fun j _ => ?_
      rw [processedRows_eq]
      simp [colKept, List.any_map, Function.comp, procRow, hcut]

/-- Witness for C8: all four failure shapes at concrete inputs. -/
theorem C8_threshold_validation_witness :
    generate_current_distribution_table oneObs (5/2) [1/10, 1/20] none "bins" =
      .error .binsNotMonotonic ∧
    generate_current_distribution_table oneObs (5/2) [0, 0, 1/10] none "bins" =
      .error .binEdgesNotUnique ∧
    generate_current_distribution_table oneObs (5/2) [] none "bins" =
      .error .labelsLengthMismatch ∧
    generate_current_distribution_table oneObs (5/2) [1/10, 1/10] none "bins" =
      .error .columnsLengthMismatch := by
  refine ⟨?_, ?_, ?_, ?_⟩
  · exact (C8_threshold_validation oneObs (5/2) [1/10, 1/20] none "bins" oneObs
      (by decide)).1 (by decide)
  · exact (C8_threshold_validation oneObs (5/2) [0, 0, 1/10] none "bins" oneObs
      (by decide)).2.1 (by decide) (by decide) (by decide)
  · exact (C8_threshold_validation oneObs (5/2) [] none "bins" oneObs
      (by decide)).2.2.1 rfl
  · exact (C8_threshold_validation oneObs (5/2) [0, 1] none "bins" oneObs
      (by decide)).2.2.2 (1/10)

/-! ### C5, C6, C7 counterexamples -/

set_option maxRecDepth 16000 in
/-- C5 counterexample: on `mixedObs` the run succeeds and the Mean row's Omni
cell (50.0, the mean of the bin rows' Omni cells) is not the mean of the Mean
row's own 12 sector values (50/12 ≈ 4.17), and the Maximum row's Omni cell
(65.0, the max of the bin rows' Omni cells) is not the max of the Maximum row's
own sector values (30.0). -/
theorem C5_counterexample :
    mixedResult.isOk = true ∧
    (tableOf mixedResult).meanRow.2 ≠ ((tableOf mixedResult).meanRow.1).sum / 12 ∧
    (tableOf mixedResult).meanRow.2 ≠
      round2 (((tableOf mixedResult).meanRow.1).sum / 12) ∧
    (tableOf mixedResult).maxRow.2 ≠ (((tableOf mixedResult).maxRow.1).max?).getD 0 := by
  decide

set_option maxRecDepth 16000 in
/-- C6 counterexample: on `mixedObs` the Maximum row's Omni cell (65.0) differs
from the sum of its 12 sector cells (90.0) by far more than the claimed 0.12
tolerance. -/
theorem C6_counterexample :
    mixedResult.isOk = true ∧
    |(tableOf mixedResult).maxRow.2 - ((tableOf mixedResult).maxRow.1).sum| > 12 / 100 := by
  decide

/-- C7 counterexample: accumulate mode never returns a table (the relabelling
`int()` raises), so no Accumulate cell can be compared with the Bins Total row;
moreover, on `tripleObs` the cumulative matrix computed before the failing
relabel has last-row value 100.00 in sector 0, while the Bins table's Total row
carries 99.99 there — the two are not equal even before the crash, because Bins
sums already-rounded cells while Accumulate rounds the cumulative sum. -/
theorem C7_counterexample :
    generate_current_distribution_table mixedObs (5/2) [0, 1, 2] none "accumulate" =
      .error .accumLabelValue ∧
    ((distMatrix (processedRows tripleObs [0, 1/10, 1/5, 3/10]) [0, 1/10, 1/5, 3/10]
        "accumulate").getLast?.getD []).getD 0 0 = 100 ∧
    (assembleTable (processedRows tripleObs [0, 1/10, 1/5, 3/10]) [0, 1/10, 1/5, 3/10]
        "bins" []).totalRow.1.getD 0 0 = 9999 / 100 := by
  decide

/-! ### Last-row helpers -/

theorem getLast_getD_map (f : List ℚ → List ℚ) :
    ∀ (l : List (List ℚ)), l ≠ [] → ((l.map f).getLast?).getD [] = f ((l.getLast?).getD [])
  | [], h => absurd rfl h
  | [a], _ => rfl
  | a :: b :: t, _ => by
      rw [List.map_cons, List.map_cons, List.getLast?_cons_cons, ← List.map_cons f b t,
        List.getLast?_cons_cons]
      exact getLast_getD_map f (b :: t) (by simp)

theorem getLast_getD_mem : ∀ (l : List (List ℚ)), l ≠ [] → (l.getLast?).getD [] ∈ l
  | [], h => absurd rfl h
  | [a], _ => by simp
  | a :: b :: t, _ => by
      rw [List.getLast?_cons_cons]
      exact List.mem_cons_of_mem a (getLast_getD_mem (b :: t) (by simp))

/-! ### C2 -/

/-- C2: with strictly increasing thresholds, an observation's speed is assigned
bin `i` exactly when it lies in `[ts[i], ts[i+1])` (values below the first or
at/above the last edge get no bin — excluded, not clamped), and every sector
cell of a speed-bin row of the returned table is the pair count times 100
divided by the number of depth-and-period-filtered observations (excluded
out-of-range observations included in the divisor), rounded to two decimals. -/
theorem C2_speed_binning_and_divisor (df : List Obs) (depth : ℚ) (ts : List ℚ)
    (period : Option String) (obs : List Obs) (T : DistTable)
    (hobs : periodFilter period (df.filter fun o => decide (o.st_ocean = depth)) = .ok obs)
    (hT : generate_current_distribution_table df depth ts period "bins" = .ok T) :
    (∀ (s : ℚ) (i : ℕ), cutIdx ts s = some i ↔
        i + 1 < ts.length ∧ ts.getD i 0 ≤ s ∧ s < ts.getD (i + 1) 0) ∧
    T.speedRows.length = (survRows (processedRows obs ts) ts).length ∧
    (∀ k j : ℕ, k < T.speedRows.length → j < 12 →
      ((T.speedRows.getD k ("", [], 0)).2.1).getD j 0 =
        round2 ((cellCount (processedRows obs ts)
            ((survRows (processedRows obs ts) ts).getD k 0) j : ℚ) * 100 /
          (obs.length : ℚ))) := by
  obtain ⟨obs2, labels, hobs2, hd, hrl, h12, hTeq⟩ := generate_ok hT
  have hoo : obs2 = obs := Except.ok.inj (hobs2.symm.trans hobs)
  subst obs2
  subst hTeq
  refine ⟨cutIdx_some_iff ts (speedCutError_none_noDecrease hd), ?_, ?_⟩
  · rw [assemble_speedRows_length, distMatrix_length]
  · intro k j hk hj
    rw [assemble_speedRows_length] at hk
    have hkraw : k < (rawMatrix (processedRows obs ts) ts).length := by
      rw [show distMatrix (processedRows obs ts) ts "bins" =
          (rawMatrix (processedRows obs ts) ts).map (fun r => r.map round2) from rfl,
        List.length_map] at hk
      exact hk
    have hksur : k < (survRows (processedRows obs ts) ts).length := by
      rw [rawMatrix_length] at hkraw
      exact hkraw
    rw [assemble_speedRows_getD _ _ _ _ hk]
    simp only
    rw [show distMatrix (processedRows obs ts) ts "bins" =
        (rawMatrix (processedRows obs ts) ts).map (fun r => r.map round2) from rfl,
      getD_map (fun r => r.map round2) [] [] hkraw,
      show rawMatrix (processedRows obs ts) ts =
        (survRows (processedRows obs ts) ts).map (fun i =>
          (survCols (processedRows obs ts)).map fun j2 =>
            (cellCount (processedRows obs ts) i j2 : ℚ) * 100 /
              ((processedRows obs ts).length : ℚ)) from rfl,
      getD_map _ 0 [] hksur]
    have hjs : j < ((survCols (processedRows obs ts)).map fun j2 =>
        (cellCount (processedRows obs ts)
          ((survRows (processedRows obs ts) ts).getD k 0) j2 : ℚ) * 100 /
            ((processedRows obs ts).length : ℚ)).length := by
      rw [List.length_map, h12]
      exact hj
    rw [getD_map round2 0 0 hjs, survCols_full h12, range_map_getD _ 0 hj,
      processedRows_length]

set_option maxRecDepth 16000 in
/-- Witness for C2. -/
theorem C2_speed_binning_and_divisor_witness :
    (periodFilter none (mixedObs.filter fun o => decide (o.st_ocean = 5/2)) =
      .ok mixedObs) ∧
    (generate_current_distribution_table mixedObs (5/2) [0, 1, 2] none "bins" =
      .ok (tableOf mixedResult)) ∧
    (tableOf mixedResult).speedRows.length =
      (survRows (processedRows mixedObs [0, 1, 2]) [0, 1, 2]).length :=
  ⟨by decide, by decide,
    (C2_speed_binning_and_divisor mixedObs (5/2) [0, 1, 2] none mixedObs
      (tableOf mixedResult) (by decide) (by decide)).2.1⟩

/-! ### C5 -/

/-- C5 (amended): the Mean row is the column-wise (rounded) mean of the
speed-bin rows taken over all 13 columns including Omni, so its Omni cell is
the rounded mean of the bin rows' Omni cells — not the mean of its own 12
sector values; likewise the Maximum row is the column-wise (rounded) maximum of
the speed-bin rows, its Omni cell being the maximum of the bin rows' Omni
cells. -/
theorem C5_summary_rows (df : List Obs) (depth : ℚ) (ts : List ℚ)
    (period : Option String) (T : DistTable)
    (hT : generate_current_distribution_table df depth ts period "bins" = .ok T) :
    (∀ j : ℕ, j < 12 → T.meanRow.1.getD j 0 =
      round2 ((T.speedRows.map fun r => r.2.1.getD j 0).sum /
        (T.speedRows.length : ℚ))) ∧
    T.meanRow.2 =
      round2 ((T.speedRows.map fun r => r.2.2).sum / (T.speedRows.length : ℚ)) ∧
    (∀ j : ℕ, j < 12 → T.maxRow.1.getD j 0 =
      round2 ((((T.speedRows.map fun r => r.2.1.getD j 0)).max?).getD 0)) ∧
    T.maxRow.2 = round2 (((T.speedRows.map fun r => r.2.2).max?).getD 0) := by
  obtain ⟨obs, labels, -, -, -, h12, hTeq⟩ := generate_ok hT
  subst hTeq
  refine ⟨?_, ?_, ?_, ?_⟩
  · intro j hj
    simp only [assemble_meanRow]
    rw [range_map_getD _ 0 (by rw [h12]; exact hj), assemble_speedRows_map_cell,
      assemble_speedRows_length]
  · simp only [assemble_meanRow]
    rw [assemble_speedRows_map_omni, assemble_speedRows_length, omniCol_length]
  · intro j hj
    simp only [assemble_maxRow]
    rw [range_map_getD _ 0 (by rw [h12]; exact hj), assemble_speedRows_map_cell]
  · simp only [assemble_maxRow]
    rw [assemble_speedRows_map_omni]

set_option maxRecDepth 16000 in
/-- Witness for C5. -/
theorem C5_summary_rows_witness :
    (generate_current_distribution_table mixedObs (5/2) [0, 1, 2] none "bins" =
      .ok (tableOf mixedResult)) ∧
    (tableOf mixedResult).meanRow.2 =
      round2 (((tableOf mixedResult).speedRows.map fun r => r.2.2).sum /
        ((tableOf mixedResult).speedRows.length : ℚ)) :=
  ⟨by decide,
    (C5_summary_rows mixedObs (5/2) [0, 1, 2] none (tableOf mixedResult) (by decide)).2.1⟩

/-! ### C6 -/

theorem mean_omni_bound {m : List (List ℚ)} {n : ℕ} (hn : n = 12)
    (hrl : ∀ r ∈ m, r.length = n) :
    |round2 ((m.map List.sum).sum / (m.length : ℚ)) -
      ((List.range n).map fun j => round2 ((colVals m j).sum / (m.length : ℚ))).sum| ≤
      12 / 100 := by
  have h1 : ((List.range n).map fun j => round2 ((colVals m j).sum / (m.length : ℚ))) =
      ((List.range n).map fun j => (colVals m j).sum / (m.length : ℚ)).map round2 := by
    rw [List.map_map]
    rfl
  have h2 : (m.map List.sum).sum / (m.length : ℚ) =
      ((List.range n).map fun j => (colVals m j).sum / (m.length : ℚ)).sum := by
    rw [show ((List.range n).map fun j => (colVals m j).sum / (m.length : ℚ)) =
        ((List.range n).map fun j => (colVals m j).sum).map
          (fun x => x / (m.length : ℚ)) from by rw [List.map_map]; rfl]
    rw [list_sum_div, sum_swap hrl]
  rw [h1, h2]
  have h3 := abs_round2_sub (((List.range n).map fun j =>
    (colVals m j).sum / (m.length : ℚ)).sum)
  have h4 := sum_round2_err ((List.range n).map fun j =>
    (colVals m j).sum / (m.length : ℚ))
  rw [abs_sub_comm] at h4
  have h5 : ((((List.range n).map fun j =>
      (colVals m j).sum / (m.length : ℚ)).length : ℕ) : ℚ) = 12 := by
    rw [List.length_map, List.length_range, hn]
    norm_num
  rw [h5] at h4
  calc |round2 (((List.range n).map fun j => (colVals m j).sum / (m.length : ℚ)).sum) -
        (((List.range n).map fun j => (colVals m j).sum / (m.length : ℚ)).map round2).sum|
      ≤ |round2 (((List.range n).map fun j => (colVals m j).sum / (m.length : ℚ)).sum) -
          ((List.range n).map fun j => (colVals m j).sum / (m.length : ℚ)).sum| +
        |((List.range n).map fun j => (colVals m j).sum / (m.length : ℚ)).sum -
          (((List.range n).map fun j => (colVals m j).sum / (m.length : ℚ)).map
            round2).sum| := abs_sub_le _ _ _
    _ ≤ 12 / 100 := by linarith

/-- C6 (amended): in the returned table the Omni cell equals the sum of the 12
sector cells exactly for every speed-bin row and for the Total row, and within
the claimed 0.12 tolerance for the Mean row; the Maximum row (see the
counterexample) does not satisfy the claim, its Omni cell being the maximum of
the bin rows' Omni cells. -/
theorem C6_omni_row_sums (df : List Obs) (depth : ℚ) (ts : List ℚ)
    (period : Option String) (T : DistTable)
    (hT : generate_current_distribution_table df depth ts period "bins" = .ok T) :
    (∀ r ∈ T.speedRows, r.2.2 = (r.2.1).sum) ∧
    T.totalRow.2 = (T.totalRow.1).sum ∧
    |T.meanRow.2 - (T.meanRow.1).sum| ≤ 12 / 100 := by
  obtain ⟨obs, labels, -, -, -, h12, hTeq⟩ := generate_ok hT
  subst hTeq
  have hrl : ∀ r ∈ distMatrix (processedRows obs ts) ts "bins",
      r.length = (survCols (processedRows obs ts)).length :=
    distMatrix_row_length (processedRows obs ts) ts "bins"
  refine ⟨?_, ?_, ?_⟩
  · intro r hr
    simp only [assembleTable, List.mem_map, List.mem_range] at hr
    obtain ⟨k, hk, rfl⟩ := hr
    simp only
    exact getD_map List.sum [] 0 hk
  · simp only [assemble_totalRow]
    exact sum_swap hrl
  · simp only [assemble_meanRow]
    rw [omniCol_eq, List.length_map]
    exact mean_omni_bound h12 hrl

set_option maxRecDepth 16000 in
/-- Witness for C6. -/
theorem C6_omni_row_sums_witness :
    (generate_current_distribution_table mixedObs (5/2) [0, 1, 2] none "bins" =
      .ok (tableOf mixedResult)) ∧
    (tableOf mixedResult).totalRow.2 = ((tableOf mixedResult).totalRow.1).sum :=
  ⟨by decide,
    (C6_omni_row_sums mixedObs (5/2) [0, 1, 2] none (tableOf mixedResult) (by decide)).2.1⟩

/-! ### C7 -/

/-- C7 (amended): accumulate mode never returns a table (see the
counterexample), so the comparison lives on the cumulative matrix the
accumulate branch computes before the failing relabel: in every sector column
its last (highest-speed) row is the rounded cumulative percentage
`round2 (Σ raw cells)`, which agrees with the Bins table's Total row (a sum of
individually rounded cells) only within `(#bin rows + 1)/200` — not exactly. -/
theorem C7_accumulate_vs_bins_total (df : List Obs) (depth : ℚ) (ts : List ℚ)
    (period : Option String) (obs : List Obs) (T : DistTable)
    (hobs : periodFilter period (df.filter fun o => decide (o.st_ocean = depth)) = .ok obs)
    (hT : generate_current_distribution_table df depth ts period "bins" = .ok T) :
    ∀ j : ℕ, j < 12 →
      ((distMatrix (processedRows obs ts) ts "accumulate").getLast?.getD []).getD j 0 =
        round2 ((colVals (rawMatrix (processedRows obs ts) ts) j).sum) ∧
      |((distMatrix (processedRows obs ts) ts "accumulate").getLast?.getD []).getD j 0 -
          T.totalRow.1.getD j 0| ≤
        (((rawMatrix (processedRows obs ts) ts).length : ℚ) + 1) / 200 := by
  obtain ⟨obs2, labels, hobs2, hd, -, h12, hTeq⟩ := generate_ok hT
  have hoo : obs2 = obs := Except.ok.inj (hobs2.symm.trans hobs)
  subst obs2
  subst hTeq
  intro j hj
  have hj2 : j < (survCols (processedRows obs ts)).length := by rw [h12]; exact hj
  have hrawlen : ∀ r ∈ rawMatrix (processedRows obs ts) ts,
      r.length = (survCols (processedRows obs ts)).length :=
    rawMatrix_row_length (processedRows obs ts) ts
  have hne : rawMatrix (processedRows obs ts) ts ≠ [] := by
    intro hc
    exact survRows_ne_nil h12 (List.map_eq_nil_iff.mp hc)
  have hcum_ne : cumsum (rawMatrix (processedRows obs ts) ts) ≠ [] := by
    intro hc
    have hl := cumsum_length (rawMatrix (processedRows obs ts) ts)
    rw [hc] at hl
    exact hne (List.length_eq_zero.mp hl.symm)
  have hlast := cumsum_getLast_getD hne hrawlen hj2
  have hacc : ((distMatrix (processedRows obs ts) ts "accumulate").getLast?.getD
      []).getD j 0 = round2 ((colVals (rawMatrix (processedRows obs ts) ts) j).sum) := by
    rw [show distMatrix (processedRows obs ts) ts "accumulate" =
        (cumsum (rawMatrix (processedRows obs ts) ts)).map (fun r => r.map round2) from
        rfl,
      getLast_getD_map _ _ hcum_ne]
    have hLmem := getLast_getD_mem _ hcum_ne
    have hLlen := cumsum_row_length hrawlen _ hLmem
    rw [getD_map round2 0 0 (by rw [hLlen]; exact hj2), hlast]
  refine ⟨hacc, ?_⟩
  have htot : (assembleTable (processedRows obs ts) ts "bins" labels).totalRow.1.getD
      j 0 = (colVals (distMatrix (processedRows obs ts) ts "bins") j).sum := by
    simp only [assemble_totalRow]
    exact range_map_getD _ 0 hj2
  have hcv : colVals (distMatrix (processedRows obs ts) ts "bins") j =
      (colVals (rawMatrix (processedRows obs ts) ts) j).map round2 := by
    rw [show distMatrix (processedRows obs ts) ts "bins" =
        (rawMatrix (processedRows obs ts) ts).map (fun r => r.map round2) from rfl,
      colVals, colVals, List.map_map, List.map_map]
    refine List.map_congr_left fun r hr => ?_
    simp only [Function.comp]
    exact getD_map round2 0 0 (by rw [hrawlen r hr]; exact hj2)
  rw [hacc, htot, hcv]
  have hxlen : (((colVals (rawMatrix (processedRows obs ts) ts) j).length : ℕ) : ℚ) =
      ((rawMatrix (processedRows obs ts) ts).length : ℚ) := by
    rw [colVals, List.length_map]
  have h3 := abs_round2_sub ((colVals (rawMatrix (processedRows obs ts) ts) j).sum)
  have h4 := sum_round2_err (colVals (rawMatrix (processedRows obs ts) ts) j)
  rw [abs_sub_comm, hxlen] at h4
  calc |round2 ((colVals (rawMatrix (processedRows obs ts) ts) j).sum) -
        ((colVals (rawMatrix (processedRows obs ts) ts) j).map round2).sum|
      ≤ |round2 ((colVals (rawMatrix (processedRows obs ts) ts) j).sum) -
          (colVals (rawMatrix (processedRows obs ts) ts) j).sum| +
        |(colVals (rawMatrix (processedRows obs ts) ts) j).sum -
          ((colVals (rawMatrix (processedRows obs ts) ts) j).map round2).sum| :=
      abs_sub_le _ _ _
    _ ≤ (((rawMatrix (processedRows obs ts) ts).length : ℚ) + 1) / 200 := by linarith

set_option maxRecDepth 16000 in
/-- Witness for C7. -/
theorem C7_accumulate_vs_bins_total_witness :
    (periodFilter none (mixedObs.filter fun o => decide (o.st_ocean = 5/2)) =
      .ok mixedObs) ∧
    ((distMatrix (processedRows mixedObs [0, 1, 2]) [0, 1, 2]
        "accumulate").getLast?.getD []).getD 0 0 =
      round2 ((colVals (rawMatrix (processedRows mixedObs [0, 1, 2]) [0, 1, 2]) 0).sum) :=
  ⟨by decide,
    ((C7_accumulate_vs_bins_total mixedObs (5/2) [0, 1, 2] none mixedObs
      (tableOf mixedResult) (by decide) (by decide)) 0 (by norm_num)).1⟩
